import Mathlib

/-!
Verification of the process-supervision and job-dispatch engine of the
infinity_x_one_systems repository.

The visible source is:
* `src/systems/infinity-crawler/worker/worker.js` — the polling worker
  (`processJob`, `run`);
* `src/systems/infinity-crawler/worker/launch_crawler_team.js` — the
  launcher that spawns the worker team, logs worker exits and handles
  SIGINT/SIGTERM.

The worker and launcher are embedded directly from that source.  The Job
Queue and Dispatch Server described by the specification (§4.1, §4.4) have
no implementation under the visible source tree; they are modelled from the
spec's words and marked as such in their doc comments.
-/

namespace InfinityCrawler

/-- A unit of work handed out over `GET /jobs`: `worker.js` reads
`job.url`; the protocol of the spec also carries a unique identifier. -/
structure Job where
  id : String
  url : String
deriving Repr, DecidableEq

/-- A JSON scalar value, enough for the bodies the worker builds. -/
inductive JsonVal where
  | str (s : String)
  | num (n : Nat)
deriving Repr, DecidableEq

/-- A JSON object body, as an ordered list of key/value fields. -/
abbrev PostBody := List (String × JsonVal)

/-- The `result` object `processJob` builds (worker.js lines 13–18):
`{ url: job.url, bytes: html.length, status: 'success', html: html }`.
These are exactly the fields serialized into the `POST /results` body. -/
def mkResult (job : Job) (html : String) : PostBody :=
  [("url", .str job.url),
   ("bytes", .num html.length),
   ("status", .str "success"),
   ("html", .str html)]

/-- Look a field up in a body, first occurrence. -/
def fieldOf (b : PostBody) (k : String) : Option JsonVal :=
  (b.find? (fun p => p.fst = k)).map (fun p => p.snd)

/-- Outcome of the Playwright navigation `page.goto(job.url)`:
either the page content, or a thrown navigation error. -/
inductive NavOutcome where
  | ok (html : String)
  | fail (msg : String)
deriving Repr, DecidableEq

/-- Outcome of the `fetch` to `POST /results`: the fetch either resolves
with some HTTP status code (fetch does not throw on 4xx/5xx), or rejects
with a network error. -/
inductive PostOutcome where
  | httpResponse (code : Nat)
  | netError (msg : String)
deriving Repr, DecidableEq

/-- Console output events of the worker. -/
inductive LogEvent where
  | postFailed (msg : String)
  | resultLine (body : PostBody)
  | pollError (msg : String)
deriving Repr, DecidableEq

/-- Observable outcome of one `processJob` call: whether it threw, the
`POST /results` bodies it attempted to send, and its console output. -/
structure ProcResult where
  threw : Option String
  posts : List PostBody
  logs : List LogEvent
deriving Repr, DecidableEq

/-- The function `processJob` (worker.js lines 6–31).  Navigation happens before the
result object is built, so a navigation failure propagates out of the
function with nothing posted.  On success the result body is sent to
`POST /results`; a rejected fetch is caught and logged, and the HTTP
response is never inspected.  Finally the result line is logged. -/
def processJob (job : Job) (nav : NavOutcome) (post : PostOutcome) : ProcResult :=
  match nav with
  | .fail msg => { threw := some msg, posts := [], logs := [] }
  | .ok html =>
    let body := mkResult job html
    match post with
    | .httpResponse _ =>
      { threw := none, posts := [body], logs := [.resultLine body] }
    | .netError msg =>
      { threw := none, posts := [body],
        logs := [.postFailed msg, .resultLine body] }

/-- Outcome of the `fetch` to `GET /jobs` plus JSON parsing, as seen by one
iteration of `run`: either a thrown network/parse error, or the parsed list
`data.jobs || []`. -/
inductive PollOutcome where
  | netError (msg : String)
  | jobsResp (jobs : List Job)
deriving Repr, DecidableEq

/-- Observable outcome of one iteration of the `run` loop. -/
structure CycleResult where
  processed : List Job
  posts : List PostBody
  logs : List LogEvent
  sleepMs : Nat
  fatal : Bool
deriving Repr, DecidableEq

/-- One iteration of the `while (true)` loop in `run` (worker.js lines
36–48): poll `GET /jobs`; if the list is non-empty, process `jobs[0]` only;
any error thrown inside the `try` (polling or `processJob`) is caught and
logged; the iteration always ends with a fixed 1000 ms sleep and the loop
never terminates. -/
def runCycle (poll : PollOutcome) (nav : Job → NavOutcome)
    (post : PostOutcome) : CycleResult :=
  match poll with
  | .netError msg =>
    { processed := [], posts := [], logs := [.pollError msg],
      sleepMs := 1000, fatal := false }
  | .jobsResp jobs =>
    match jobs with
    | [] =>
      { processed := [], posts := [], logs := [], sleepMs := 1000,
        fatal := false }
    | j :: _ =>
      let pr := processJob j (nav j) post
      match pr.threw with
      | some msg =>
        { processed := [j], posts := pr.posts,
          logs := pr.logs ++ [.pollError msg], sleepMs := 1000,
          fatal := false }
      | none =>
        { processed := [j], posts := pr.posts, logs := pr.logs,
          sleepMs := 1000, fatal := false }

/-- Input of one poll cycle, used to run the loop over several cycles. -/
structure CycleInput where
  poll : PollOutcome
  nav : Job → NavOutcome
  post : PostOutcome

/-- The `run` loop over a finite prefix of cycles: the loop body keeps no
state between iterations, so a trace is the pointwise image of the cycle
inputs. -/
def runTrace (inputs : List CycleInput) : List CycleResult :=
  inputs.map (fun c => runCycle c.poll c.nav c.post)

/-- POSIX signals the launcher forwards. -/
inductive Signal where
  | sigint
  | sigterm
deriving Repr, DecidableEq

/-- Actions a shutdown handler could take.  Beyond the kill and exit the
source performs, the vocabulary includes the wait and force-kill steps a
graceful supervisor would take, so that their absence is expressible. -/
inductive ShutdownAction where
  | killWorker (idx : Nat) (sig : Signal)
  | waitForExit (idx : Nat)
  | forceKill (idx : Nat)
  | exitProcess (code : Nat)
deriving Repr, DecidableEq

/-- The SIGINT/SIGTERM handlers of `launch_crawler_team.js` (lines 36–50):
`workers.forEach((worker) => worker.kill(sig)); process.exit(0);` — the
handler forwards the received signal to each of the `n` workers in order
and then immediately exits with status 0. -/
def shutdownHandler (sig : Signal) (numWorkers : Nat) : List ShutdownAction :=
  (List.range numWorkers).map (fun i => ShutdownAction.killWorker i sig)
    ++ [ShutdownAction.exitProcess 0]

/-- Whether a shutdown action waits for a worker to exit. -/
def ShutdownAction.isWait : ShutdownAction → Bool
  | .waitForExit _ => true
  | _ => false

/-- Whether a shutdown action force-terminates a worker. -/
def ShutdownAction.isForceKill : ShutdownAction → Bool
  | .forceKill _ => true
  | _ => false

/-- Actions the launcher's per-worker `close` handler could take.  The
vocabulary includes the respawn and backoff-wait steps a restarting
supervisor would take, so that their absence is expressible. -/
inductive CloseAction where
  | logExit (workerId : String) (code : Int)
  | backoffWait (ms : Nat)
  | respawn (workerId : String)
deriving Repr, DecidableEq

/-- The `worker.on('close')` handler of `launch_crawler_team.js` (lines
24–26): `console.log(workerId + ' exited with code ' + code)` — it only
logs the exit. -/
def onWorkerClose (workerId : String) (code : Int) : List CloseAction :=
  [CloseAction.logExit workerId code]

/-- Whether a close action respawns the worker. -/
def CloseAction.isRespawn : CloseAction → Bool
  | .respawn _ => true
  | _ => false

/-- Whether a close action waits a backoff delay. -/
def CloseAction.isBackoffWait : CloseAction → Bool
  | .backoffWait _ => true
  | _ => false

/-- Modelled from the spec: the state of a queue slot (§4.1, §3 Job).  The
Job Queue implementation is not under the visible source tree; only the
worker-side protocol is.  A job is pending (unleased), leased until an
expiry instant, completed, or dead-lettered. -/
inductive JobStatus where
  | pending
  | leased (expiry : Nat)
  | completed
  | dead
deriving Repr, DecidableEq

/-- Modelled from the spec: a queue entry — the Job, its enqueue
timestamp, its lease status and its requeue counter (§4.1). -/
structure QueueJob where
  job : Job
  enqueueTime : Nat
  status : JobStatus
  requeues : Nat
deriving Repr, DecidableEq

/-- Modelled from the spec: a `POST /results` message `{ id, url, status,
payload }` (§6). -/
structure ResultMsg where
  id : String
  url : String
  status : String
  payload : String
deriving Repr, DecidableEq

/-- Modelled from the spec: queue, Result Sink and Manifest state owned by
the Dispatch Server side (§4.1, §4.4, §3).  `entries` is in insertion
order; `manifest` maps job identifiers to positions in `sink`. -/
structure QueueState where
  entries : List QueueJob
  sink : List ResultMsg
  manifest : List (String × Nat)
deriving Repr, DecidableEq

/-- Identifiers of the queue entries, in insertion order. -/
def QueueState.ids (s : QueueState) : List String :=
  s.entries.map (fun e => e.job.id)

/-- Well-formedness: queue entries carry pairwise distinct identifiers
(`enqueue` rejects duplicates with `DuplicateJobError`, §4.1). -/
abbrev QueueState.WF (s : QueueState) : Prop :=
  s.ids.Nodup

/-- The status the queue records for an identifier, if present. -/
def statusOf (es : List QueueJob) (id : String) : Option JobStatus :=
  (es.find? (fun e => e.job.id = id)).map (fun e => e.status)

/-- Modelled from the spec: the core of `lease(count)` (§4.1) — walk the
entries in insertion order (FIFO), take up to `count` pending ones, mark
each taken entry leased with expiry `now + dur`, and return the taken
jobs. -/
def leaseAux (now dur : Nat) : Nat → List QueueJob → List QueueJob × List Job
  | _, [] => ([], [])
  | 0, e :: es => (e :: es, [])
  | count + 1, e :: es =>
    match e.status with
    | .pending =>
      let r := leaseAux now dur count es
      ({ e with status := .leased (now + dur) } :: r.fst, e.job :: r.snd)
    | _ =>
      let r := leaseAux now dur (count + 1) es
      (e :: r.fst, r.snd)

/-- Modelled from the spec: `lease(count)` / `pullJobs(max)` (§4.1, §4.4):
returns up to `count` not-currently-leased jobs in FIFO order and marks
them leased with a lease-expiry timestamp. -/
def lease (s : QueueState) (count now dur : Nat) : QueueState × List Job :=
  let r := leaseAux now dur count s.entries
  ({ s with entries := r.fst }, r.snd)

/-- Modelled from the spec: `reclaim()` on one entry (§4.1) — an expired
lease returns to the unleased pool with its requeue counter incremented;
past the maximum requeue count the job moves to the dead-letter set. -/
def reclaimEntry (now maxRequeue : Nat) (e : QueueJob) : QueueJob :=
  match e.status with
  | .leased expiry =>
    if expiry ≤ now then
      if maxRequeue < e.requeues + 1 then
        { e with status := .dead, requeues := e.requeues + 1 }
      else
        { e with status := .pending, requeues := e.requeues + 1 }
    else e
  | _ => e

/-- Modelled from the spec: `reclaim()` (§4.1), applied across the
queue. -/
def reclaim (s : QueueState) (now maxRequeue : Nat) : QueueState :=
  { s with entries := s.entries.map (reclaimEntry now maxRequeue) }

/-- Whether the queue currently holds an outstanding lease for `id`. -/
def isLeasedId (s : QueueState) (id : String) : Bool :=
  s.entries.any (fun e =>
    e.job.id = id &&
      match e.status with
      | .leased _ => true
      | _ => false)

/-- Dispatch Server responses to `POST /results` (§6): 200 accept, 409
duplicate/unknown, 400 malformed. -/
inductive SubmitResp where
  | accepted
  | duplicate
  | unknown
  | malformed
deriving Repr, DecidableEq

/-- Modelled from the spec: `submitResult(result)` (§4.4, §6) — reject a
malformed body (missing identifier) with a client error; reject an
identifier already present in the Manifest as a duplicate, leaving all
state unchanged; reject an identifier with no outstanding lease; otherwise
`complete` the job, append the Result to the sink and record the Manifest
entry. -/
def submitResult (s : QueueState) (r : ResultMsg) : QueueState × SubmitResp :=
  if r.id = "" then (s, .malformed)
  else if s.manifest.any (fun p => p.fst = r.id) then (s, .duplicate)
  else if !isLeasedId s r.id then (s, .unknown)
  else
    ({ entries := s.entries.map (fun e =>
         if e.job.id = r.id then { e with status := .completed } else e),
       sink := s.sink ++ [r],
       manifest := s.manifest ++ [(r.id, s.sink.length)] },
     .accepted)

/-! ## Helper lemmas about the spec-modelled queue -/

/-- The helper `leaseAux` only changes lease marks: the underlying jobs (and their
order) are untouched. -/
theorem leaseAux_fst_map_job (now dur c : Nat) (es : List QueueJob) :
    ((leaseAux now dur c es).fst).map (fun e => e.job) = es.map (fun e => e.job) := by
  induction es generalizing c with
  | nil => simp [leaseAux]
  | cons e es ih =>
    cases c with
    | zero => simp [leaseAux]
    | succ n =>
      cases hs : e.status with
      | pending => simp [leaseAux, hs, ih]
      | leased ex => simp [leaseAux, hs, ih]
      | completed => simp [leaseAux, hs, ih]
      | dead => simp [leaseAux, hs, ih]

/-- The helper `leaseAux` preserves the list of identifiers. -/
theorem leaseAux_fst_map_id (now dur c : Nat) (es : List QueueJob) :
    ((leaseAux now dur c es).fst).map (fun e => e.job.id) = es.map (fun e => e.job.id) := by
  have h := congrArg (List.map (fun j : Job => j.id)) (leaseAux_fst_map_job now dur c es)
  simpa [List.map_map, Function.comp] using h

/-- Every job handed out by `leaseAux` came from an entry that was pending
in the input queue. -/
theorem leaseAux_snd_mem (now dur c : Nat) (es : List QueueJob) (j : Job) :
    j ∈ (leaseAux now dur c es).snd →
      ∃ e, e ∈ es ∧ e.job = j ∧ e.status = JobStatus.pending := by
  induction es generalizing c with
  | nil => intro h; simp [leaseAux] at h
  | cons e es ih =>
    cases c with
    | zero => intro h; simp [leaseAux] at h
    | succ n =>
      intro h
      cases hs : e.status with
      | pending =>
        simp only [leaseAux, hs] at h
        rcases List.mem_cons.mp h with h | h
        · exact ⟨e, List.mem_cons_self e es, h.symm, hs⟩
        · rcases ih n h with ⟨e2, he2, hj2, hp2⟩
          exact ⟨e2, List.mem_cons_of_mem e he2, hj2, hp2⟩
      | leased ex =>
        simp only [leaseAux, hs] at h
        rcases ih (n + 1) h with ⟨e2, he2, hj2, hp2⟩
        exact ⟨e2, List.mem_cons_of_mem e he2, hj2, hp2⟩
      | completed =>
        simp only [leaseAux, hs] at h
        rcases ih (n + 1) h with ⟨e2, he2, hj2, hp2⟩
        exact ⟨e2, List.mem_cons_of_mem e he2, hj2, hp2⟩
      | dead =>
        simp only [leaseAux, hs] at h
        rcases ih (n + 1) h with ⟨e2, he2, hj2, hp2⟩
        exact ⟨e2, List.mem_cons_of_mem e he2, hj2, hp2⟩

/-- After `leaseAux`, every remaining entry that carries the identifier of
a handed-out job is marked leased (identifiers pairwise distinct). -/
theorem leaseAux_fst_leased (now dur c : Nat) (es : List QueueJob) (j : Job) :
    (es.map (fun e => e.job.id)).Nodup →
    j ∈ (leaseAux now dur c es).snd →
    ∀ e2, e2 ∈ (leaseAux now dur c es).fst → e2.job.id = j.id →
      e2.status = JobStatus.leased (now + dur) := by
  induction es generalizing c with
  | nil => intro _ h; simp [leaseAux] at h
  | cons e es ih =>
    cases c with
    | zero => intro _ h; simp [leaseAux] at h
    | succ n =>
      intro hnd h e2 he2 hid
      have hnd1 : e.job.id ∉ es.map (fun x => x.job.id) := (List.nodup_cons.mp hnd).1
      have hnd2 : (es.map (fun x => x.job.id)).Nodup := (List.nodup_cons.mp hnd).2
      cases hs : e.status with
      | pending =>
        simp only [leaseAux, hs] at h he2
        rcases List.mem_cons.mp he2 with he2 | he2
        · rw [he2]
        · rcases List.mem_cons.mp h with h | h
          · exfalso
            apply hnd1
            have hmem : e2.job ∈ ((leaseAux now dur n es).fst).map (fun x => x.job) :=
              List.mem_map_of_mem _ he2
            rw [leaseAux_fst_map_job] at hmem
            rcases List.mem_map.mp hmem with ⟨e3, he3, hj3⟩
            have : e3.job.id = e.job.id := by rw [hj3, hid, h]
            rw [← this]
            exact List.mem_map_of_mem _ he3
          · exact ih n hnd2 h e2 he2 hid
      | leased ex =>
        simp only [leaseAux, hs] at h he2
        rcases List.mem_cons.mp he2 with he2 | he2
        · exfalso
          apply hnd1
          rcases leaseAux_snd_mem now dur (n + 1) es j h with ⟨e3, he3, hj3, _⟩
          have : e3.job.id = e.job.id := by rw [hj3, ← hid, he2]
          rw [← this]
          exact List.mem_map_of_mem _ he3
        · exact ih (n + 1) hnd2 h e2 he2 hid
      | completed =>
        simp only [leaseAux, hs] at h he2
        rcases List.mem_cons.mp he2 with he2 | he2
        · exfalso
          apply hnd1
          rcases leaseAux_snd_mem now dur (n + 1) es j h with ⟨e3, he3, hj3, _⟩
          have : e3.job.id = e.job.id := by rw [hj3, ← hid, he2]
          rw [← this]
          exact List.mem_map_of_mem _ he3
        · exact ih (n + 1) hnd2 h e2 he2 hid
      | dead =>
        simp only [leaseAux, hs] at h he2
        rcases List.mem_cons.mp he2 with he2 | he2
        · exfalso
          apply hnd1
          rcases leaseAux_snd_mem now dur (n + 1) es j h with ⟨e3, he3, hj3, _⟩
          have : e3.job.id = e.job.id := by rw [hj3, ← hid, he2]
          rw [← this]
          exact List.mem_map_of_mem _ he3
        · exact ih (n + 1) hnd2 h e2 he2 hid

/-- With pairwise distinct identifiers, `statusOf` reads back exactly the
status of a member entry. -/
theorem statusOf_eq_of_mem (es : List QueueJob) (e : QueueJob) :
    (es.map (fun x => x.job.id)).Nodup → e ∈ es →
      statusOf es e.job.id = some e.status := by
  induction es with
  | nil => intro _ he; simp at he
  | cons e0 es ih =>
    intro hnd he
    rcases List.mem_cons.mp he with he | he
    · subst he
      simp [statusOf, List.find?]
    · have hne : (e0.job.id = e.job.id) = False := by
        simp only [eq_iff_iff, iff_false]
        intro hEq
        have hm : e0.job.id ∈ List.map (fun x => x.job.id) es := by
          rw [hEq]
          exact List.mem_map_of_mem _ he
        exact (List.nodup_cons.mp hnd).1 hm
      simp only [statusOf, List.find?, hne, decide_False]
      exact ih (List.nodup_cons.mp hnd).2 he

/-- The step `reclaimEntry` never changes the job carried by an entry. -/
theorem reclaimEntry_job (now maxRequeue : Nat) (e : QueueJob) :
    (reclaimEntry now maxRequeue e).job = e.job := by
  unfold reclaimEntry
  cases hs : e.status <;> simp [hs]
  split
  · split <;> rfl
  · rfl

/-! ## Concrete fixtures -/

/-- A concrete job as the orchestrator would hand it out. -/
def jobEx : Job := { id := "job-1", url := "https://example.com" }

/-- A navigation environment in which every page loads. -/
def navOk : Job → NavOutcome := fun _ => NavOutcome.ok "<html></html>"

/-- A three-cycle run: the first cycle gets a job but the `POST /results`
fetch rejects; the second cycle's `GET /jobs` fetch rejects; the third
cycle sees an empty job list. -/
def failRun : List CycleInput :=
  [{ poll := PollOutcome.jobsResp [jobEx], nav := navOk,
     post := PostOutcome.netError "connection refused" },
   { poll := PollOutcome.netError "connection refused", nav := navOk,
     post := PostOutcome.httpResponse 200 },
   { poll := PollOutcome.jobsResp [], nav := navOk,
     post := PostOutcome.httpResponse 200 }]

/-! ## Claim theorems -/

/-- C1: the protocol requires the `POST /results` body to carry the job
identifier (`id`) and the producing worker identity, but the body the
worker actually posts for the job `{id: "job-1", url:
"https://example.com"}` is `{url, bytes, status, html}`: it has no `id`
field and no worker-identity field at all (the launcher passes a
`workerId` argument the worker never reads), so the dispatch server cannot
attribute or deduplicate the result. -/
theorem result_body_missing_job_id :
    (processJob jobEx (NavOutcome.ok "<html></html>") (PostOutcome.httpResponse 200)).posts
      = [mkResult jobEx "<html></html>"] ∧
    fieldOf (mkResult jobEx "<html></html>") "id" = none ∧
    (mkResult jobEx "<html></html>").map Prod.fst = ["url", "bytes", "status", "html"] :=
  ⟨rfl, rfl, rfl⟩

/-- C2 counterexample: on SIGINT with three workers the launcher's handler
forwards the signal to each worker and exits with status 0 at once: the
action trace contains no step that waits for a worker to stop and no
force-kill step, refuting the claim that it waits for all workers (or the
grace deadline) and force-terminates stragglers. -/
theorem shutdown_no_wait_cex :
    shutdownHandler Signal.sigint 3 =
      [ShutdownAction.killWorker 0 Signal.sigint,
       ShutdownAction.killWorker 1 Signal.sigint,
       ShutdownAction.killWorker 2 Signal.sigint,
       ShutdownAction.exitProcess 0] ∧
    (shutdownHandler Signal.sigint 3).filter ShutdownAction.isWait = [] ∧
    (shutdownHandler Signal.sigint 3).filter ShutdownAction.isForceKill = [] ∧
    (shutdownHandler Signal.sigterm 3).filter ShutdownAction.isWait = [] :=
  ⟨rfl, rfl, rfl, rfl⟩

/-- C2 (amended): on SIGINT or SIGTERM the launcher forwards the received
signal to every worker and then immediately exits with status 0; it never
waits for a worker to stop, never force-terminates one, and the exit
status is 0 regardless of worker states. -/
theorem shutdown_kills_all_and_exits_zero (sig : Signal) (n : Nat) :
    (∀ i, i < n → ShutdownAction.killWorker i sig ∈ shutdownHandler sig n) ∧
    (shutdownHandler sig n).getLast? = some (ShutdownAction.exitProcess 0) ∧
    (shutdownHandler sig n).filter ShutdownAction.isWait = [] ∧
    (shutdownHandler sig n).filter ShutdownAction.isForceKill = [] := by
  refine ⟨?_, ?_, ?_, ?_⟩
  · intro i hi
    simp only [shutdownHandler, List.mem_append, List.mem_map, List.mem_range]
    exact Or.inl ⟨i, hi, rfl⟩
  · rw [shutdownHandler, List.getLast?_append_cons]
    rfl
  · simp [shutdownHandler, List.filter_append, List.filter_eq_nil_iff,
      ShutdownAction.isWait]
  · simp [shutdownHandler, List.filter_append, List.filter_eq_nil_iff,
      ShutdownAction.isForceKill]

/-- Witness for C2's amended theorem at SIGTERM with 3 workers. -/
theorem shutdown_kills_all_and_exits_zero_witness :
    (2 < 3 ∧ ShutdownAction.killWorker 2 Signal.sigterm ∈ shutdownHandler Signal.sigterm 3) ∧
    (shutdownHandler Signal.sigterm 3).getLast? = some (ShutdownAction.exitProcess 0) :=
  ⟨⟨by decide, (shutdown_kills_all_and_exits_zero Signal.sigterm 3).1 2 (by decide)⟩,
   (shutdown_kills_all_and_exits_zero Signal.sigterm 3).2.1⟩

/-- C3 counterexample: when worker `worker-1` exits with code 1, the
launcher's `close` handler only logs the exit — its action list contains
no respawn and no backoff wait, refuting the claim that the supervisor
respawns the worker after `min(base * 2^failureCount, cap)`. -/
theorem close_no_respawn_cex :
    onWorkerClose "worker-1" 1 = [CloseAction.logExit "worker-1" 1] ∧
    (onWorkerClose "worker-1" 1).filter CloseAction.isRespawn = [] ∧
    (onWorkerClose "worker-1" 1).filter CloseAction.isBackoffWait = [] :=
  ⟨rfl, rfl, rfl⟩

/-- C3 (amended): whenever a supervised worker process exits, for any
worker identifier and exit code, the launcher only logs the exit; it never
respawns the worker and never waits a backoff delay. -/
theorem close_handler_logs_only (wid : String) (code : Int) :
    onWorkerClose wid code = [CloseAction.logExit wid code] ∧
    (onWorkerClose wid code).filter CloseAction.isRespawn = [] ∧
    (onWorkerClose wid code).filter CloseAction.isBackoffWait = [] :=
  ⟨rfl, rfl, rfl⟩

/-- C4 counterexample: in the concrete three-cycle run `failRun` the
`POST /results` fetch of cycle 0 fails, yet the result body is never
re-posted in any later cycle (the loop keeps no retry state), and after
both that failure and the failed `GET /jobs` of cycle 1 the inter-cycle
delay stays exactly 1000 ms — there is no retry and no exponential
backoff, refuting that part of the claim. -/
theorem worker_no_retry_no_backoff_cex :
    (runTrace failRun).map (fun c => c.posts)
      = [[mkResult jobEx "<html></html>"], [], []] ∧
    (runTrace failRun).map (fun c => c.sleepMs) = [1000, 1000, 1000] ∧
    (runTrace failRun).map (fun c => c.fatal) = [false, false, false] :=
  ⟨rfl, rfl, rfl⟩

/-- C4 (amended): a network failure while fetching `/jobs` or posting to
`/results` is never fatal — the error is caught and logged and the worker
proceeds to the next poll cycle after the fixed 1000 ms sleep — but the
failed operation is not retried and the delay never grows. -/
theorem worker_errors_nonfatal_fixed_delay (poll : PollOutcome)
    (nav : Job → NavOutcome) (post : PostOutcome) (job : Job) (html msg : String) :
    (runCycle poll nav post).fatal = false ∧
    (runCycle poll nav post).sleepMs = 1000 ∧
    (processJob job (NavOutcome.ok html) (PostOutcome.netError msg)).threw = none ∧
    runCycle (PollOutcome.netError msg) nav post =
      { processed := [], posts := [], logs := [LogEvent.pollError msg],
        sleepMs := 1000, fatal := false } := by
  refine ⟨?_, ?_, rfl, rfl⟩
  · cases poll with
    | netError m => rfl
    | jobsResp jobs =>
      cases jobs with
      | nil => rfl
      | cons j rest =>
        simp only [runCycle]
        cases (processJob j (nav j) post).threw <;> rfl
  · cases poll with
    | netError m => rfl
    | jobsResp jobs =>
      cases jobs with
      | nil => rfl
      | cons j rest =>
        simp only [runCycle]
        cases (processJob j (nav j) post).threw <;> rfl

/-- C5: in every iteration of the polling loop, at most one job is handed
to `processJob` and the iteration ends with the fixed 1000 ms sleep,
whatever the `/jobs` response contained and however deep the queue is. -/
theorem runCycle_single_job_fixed_sleep (poll : PollOutcome)
    (nav : Job → NavOutcome) (post : PostOutcome) :
    (runCycle poll nav post).processed.length ≤ 1 ∧
    (runCycle poll nav post).sleepMs = 1000 := by
  cases poll with
  | netError m => exact ⟨by simp [runCycle], rfl⟩
  | jobsResp jobs =>
    cases jobs with
    | nil => exact ⟨by simp [runCycle], rfl⟩
    | cons j rest =>
      constructor
      · simp only [runCycle]
        cases (processJob j (nav j) post).threw <;> simp
      · simp only [runCycle]
        cases (processJob j (nav j) post).threw <;> rfl

/-- C8: the worker only ever submits results with status `success`: every
body it posts carries the field `status: "success"`, and for a job whose
navigation throws, `processJob` throws before the result object is built,
so no result at all is submitted for that job. -/
theorem worker_results_always_success (job : Job) (msg : String)
    (nav : NavOutcome) (post : PostOutcome) :
    (processJob job (NavOutcome.fail msg) post).posts = [] ∧
    (processJob job (NavOutcome.fail msg) post).threw = some msg ∧
    ∀ b, b ∈ (processJob job nav post).posts →
      fieldOf b "status" = some (JsonVal.str "success") := by
  refine ⟨rfl, rfl, ?_⟩
  intro b hb
  cases nav with
  | fail m => simp [processJob] at hb
  | ok html =>
    have hb2 : b = mkResult job html := by
      cases post with
      | httpResponse c => simpa [processJob] using hb
      | netError m => simpa [processJob] using hb
    rw [hb2]
    rfl

/-- Witness for C8 at a concrete job, navigation outcome and response. -/
theorem worker_results_always_success_witness :
    mkResult jobEx "<html></html>" ∈
      (processJob jobEx (NavOutcome.ok "<html></html>") (PostOutcome.httpResponse 200)).posts ∧
    fieldOf (mkResult jobEx "<html></html>") "status" = some (JsonVal.str "success") :=
  ⟨by decide,
   worker_results_always_success jobEx "x" (NavOutcome.ok "<html></html>")
     (PostOutcome.httpResponse 200) |>.2.2 (mkResult jobEx "<html></html>") (by decide)⟩

/-- C9: when a `/jobs` poll returns a list of jobs, the worker hands
exactly the first element to `processJob` — the processed list is
`jobs.take 1` — and every body it posts that cycle refers to the first
job's URL; jobs at later positions are untouched. -/
theorem worker_processes_head_only (jobs : List Job) (nav : Job → NavOutcome)
    (post : PostOutcome) :
    (runCycle (PollOutcome.jobsResp jobs) nav post).processed = jobs.take 1 ∧
    ∀ j rest b, b ∈ (runCycle (PollOutcome.jobsResp (j :: rest)) nav post).posts →
      fieldOf b "url" = some (JsonVal.str j.url) := by
  constructor
  · cases jobs with
    | nil => rfl
    | cons j rest =>
      simp only [runCycle]
      cases (processJob j (nav j) post).threw <;> rfl
  · intro j rest b hb
    have hposts : (runCycle (PollOutcome.jobsResp (j :: rest)) nav post).posts
        = (processJob j (nav j) post).posts := by
      simp only [runCycle]
      cases (processJob j (nav j) post).threw <;> rfl
    rw [hposts] at hb
    cases hnav : nav j with
    | fail m => rw [hnav] at hb; simp [processJob] at hb
    | ok html =>
      have hb2 : b = mkResult j html := by
        rw [hnav] at hb
        cases post with
        | httpResponse c => simpa [processJob] using hb
        | netError m => simpa [processJob] using hb
      rw [hb2]
      rfl

/-- Witness for C9 at a two-job response: only the first job is processed
and the posted body carries its URL. -/
theorem worker_processes_head_only_witness :
    (runCycle (PollOutcome.jobsResp [jobEx, { id := "job-2", url := "https://two.example" }])
        navOk (PostOutcome.httpResponse 200)).processed = [jobEx] ∧
    fieldOf (mkResult jobEx "<html></html>") "url" = some (JsonVal.str jobEx.url) :=
  ⟨(worker_processes_head_only [jobEx, { id := "job-2", url := "https://two.example" }]
      navOk (PostOutcome.httpResponse 200)).1,
   (worker_processes_head_only [jobEx, { id := "job-2", url := "https://two.example" }]
      navOk (PostOutcome.httpResponse 200)).2 jobEx
      [{ id := "job-2", url := "https://two.example" }]
      (mkResult jobEx "<html></html>") (by decide)⟩

/-- C10: the worker never inspects the HTTP response of its `POST
/results`: for any two response codes the server could return (200, 409,
400, ...), both `processJob` and the whole poll cycle behave
identically — same posts, same logs, same sleep, no retry and no error. -/
theorem worker_ignores_results_response (job : Job) (nav : NavOutcome)
    (c1 c2 : Nat) (poll : PollOutcome) (navf : Job → NavOutcome) :
    processJob job nav (PostOutcome.httpResponse c1)
      = processJob job nav (PostOutcome.httpResponse c2) ∧
    runCycle poll navf (PostOutcome.httpResponse c1)
      = runCycle poll navf (PostOutcome.httpResponse c2) := by
  constructor
  · cases nav <;> rfl
  · cases poll with
    | netError m => rfl
    | jobsResp jobs =>
      cases jobs with
      | nil => rfl
      | cons j rest =>
        have h : processJob j (navf j) (PostOutcome.httpResponse c1)
            = processJob j (navf j) (PostOutcome.httpResponse c2) := by
          cases navf j <;> rfl
        simp only [runCycle, h]

/-- A concrete queue: jobs `a` and `b` pending, job `c` leased until 10. -/
def queueEx : QueueState :=
  { entries :=
      [{ job := { id := "a", url := "https://a.example" }, enqueueTime := 0,
         status := JobStatus.pending, requeues := 0 },
       { job := { id := "b", url := "https://b.example" }, enqueueTime := 1,
         status := JobStatus.pending, requeues := 0 },
       { job := { id := "c", url := "https://c.example" }, enqueueTime := 2,
         status := JobStatus.leased 10, requeues := 0 }],
    sink := [], manifest := [] }

/-- C6: at most one outstanding lease per job.  For a well-formed queue:
a job that is currently leased is never handed out by `lease`; two
successive `lease` calls (no intervening `reclaim`) never hand out the
same identifier; and an expired lease is returned to the unleased pool by
`reclaim` (its status becomes pending again), which is the only way a
leased job re-enters circulation. -/
theorem lease_at_most_one (s : QueueState) (hwf : s.WF) (c1 t1 d1 c2 t2 d2 : Nat) :
    (∀ id ex, statusOf s.entries id = some (JobStatus.leased ex) →
        ∀ j, j ∈ (lease s c1 t1 d1).snd → j.id ≠ id) ∧
    (∀ j1, j1 ∈ (lease s c1 t1 d1).snd →
        ∀ j2, j2 ∈ (lease (lease s c1 t1 d1).fst c2 t2 d2).snd → j1.id ≠ j2.id) ∧
    (∀ now maxRequeue e ex, e ∈ s.entries → e.status = JobStatus.leased ex →
        ex ≤ now → e.requeues + 1 ≤ maxRequeue →
        statusOf (reclaim s now maxRequeue).entries e.job.id = some JobStatus.pending) := by
  refine ⟨?_, ?_, ?_⟩
  · intro id ex hst j hj hEq
    have hj2 : j ∈ (leaseAux t1 d1 c1 s.entries).snd := hj
    obtain ⟨e, he, hej, hp⟩ := leaseAux_snd_mem t1 d1 c1 s.entries j hj2
    have hs2 := statusOf_eq_of_mem s.entries e hwf he
    rw [hej, hEq, hp, hst] at hs2
    simp at hs2
  · intro j1 hj1 j2 hj2 hEq
    have hj1b : j1 ∈ (leaseAux t1 d1 c1 s.entries).snd := hj1
    have hj2b : j2 ∈ (leaseAux t2 d2 c2 (leaseAux t1 d1 c1 s.entries).fst).snd := hj2
    obtain ⟨e2, he2, hej2, hp2⟩ :=
      leaseAux_snd_mem t2 d2 c2 (leaseAux t1 d1 c1 s.entries).fst j2 hj2b
    have hid : e2.job.id = j1.id := by rw [hej2, hEq]
    have hl := leaseAux_fst_leased t1 d1 c1 s.entries j1 hwf hj1b e2 he2 hid
    rw [hp2] at hl
    simp at hl
  · intro now maxRequeue e ex he hst hle hreq
    have hmem : reclaimEntry now maxRequeue e ∈ (reclaim s now maxRequeue).entries :=
      List.mem_map_of_mem _ he
    have hnd2 : ((reclaim s now maxRequeue).entries.map (fun x => x.job.id)).Nodup := by
      have hcomp : ((fun x : QueueJob => x.job.id) ∘ reclaimEntry now maxRequeue)
          = (fun x : QueueJob => x.job.id) := by
        funext x
        simp [Function.comp, reclaimEntry_job]
      simp only [reclaim, List.map_map, hcomp]
      exact hwf
    have hs2 := statusOf_eq_of_mem (reclaim s now maxRequeue).entries
      (reclaimEntry now maxRequeue e) hnd2 hmem
    rw [reclaimEntry_job] at hs2
    have hstat : (reclaimEntry now maxRequeue e).status = JobStatus.pending := by
      simp [reclaimEntry, hst, hle, Nat.not_lt.mpr hreq]
    rw [hstat] at hs2
    exact hs2

/-- Witness for C6: in `queueEx`, leasing once and then again hands out
jobs `a` then `b`, and the two identifiers differ. -/
theorem lease_at_most_one_witness :
    queueEx.WF ∧
    ({ id := "a", url := "https://a.example" } : Job) ∈ (lease queueEx 1 0 5).snd ∧
    ({ id := "b", url := "https://b.example" } : Job)
      ∈ (lease (lease queueEx 1 0 5).fst 1 1 5).snd ∧
    ({ id := "a", url := "https://a.example" } : Job).id
      ≠ ({ id := "b", url := "https://b.example" } : Job).id :=
  ⟨by decide, by decide, by decide,
   (lease_at_most_one queueEx (by decide) 1 0 5 1 1 5).2.1
     { id := "a", url := "https://a.example" } (by decide)
     { id := "b", url := "https://b.example" } (by decide)⟩

/-- A concrete dispatch state: job `a` already completed (one manifest
entry and one sink record), job `b` currently leased. -/
def queueDupEx : QueueState :=
  { entries :=
      [{ job := { id := "b", url := "https://b.example" }, enqueueTime := 1,
         status := JobStatus.leased 10, requeues := 0 }],
    sink := [{ id := "a", url := "https://a.example", status := "success",
               payload := "<html></html>" }],
    manifest := [("a", 0)] }

/-- A duplicate submission for the already-completed job `a`. -/
def dupMsg : ResultMsg :=
  { id := "a", url := "https://a.example", status := "success", payload := "x" }

/-- C7: submitting a Result whose identifier is already in the Manifest is
rejected as a duplicate and leaves the whole state (queue, sink, Manifest)
unchanged; and a submission never produces a repeated Manifest identifier,
so each completed job has exactly one Manifest entry ever. -/
theorem submitResult_duplicate_rejected (s : QueueState) (r rp : ResultMsg)
    (hne : r.id ≠ "") (hdup : r.id ∈ s.manifest.map Prod.fst)
    (hnd : (s.manifest.map Prod.fst).Nodup) :
    submitResult s r = (s, SubmitResp.duplicate) ∧
    ((submitResult s rp).fst.manifest.map Prod.fst).Nodup := by
  constructor
  · have hany : s.manifest.any (fun p => p.fst = r.id) = true := by
      rcases List.mem_map.mp hdup with ⟨p, hp, hid⟩
      exact List.any_eq_true.mpr ⟨p, hp, by simp [hid]⟩
    simp [submitResult, hne, hany]
  · by_cases h1 : rp.id = ""
    · simp [submitResult, h1, hnd]
    · by_cases h2 : s.manifest.any (fun p => p.fst = rp.id) = true
      · simp [submitResult, h1, h2, hnd]
      · by_cases h3 : isLeasedId s rp.id = true
        · have hnotin : rp.id ∉ s.manifest.map Prod.fst := by
            intro hmem
            rcases List.mem_map.mp hmem with ⟨p, hp, hid⟩
            exact h2 (List.any_eq_true.mpr ⟨p, hp, by simp [hid]⟩)
          simp [submitResult, h1, h2, h3, List.nodup_append, hnd, hnotin]
        · simp [submitResult, h1, h2, h3, hnd]

/-- Witness for C7: re-submitting job `a` against `queueDupEx` is rejected
as a duplicate, the state is unchanged and the Manifest identifiers stay
duplicate-free. -/
theorem submitResult_duplicate_rejected_witness :
    (dupMsg.id ≠ "" ∧ dupMsg.id ∈ queueDupEx.manifest.map Prod.fst ∧
      (queueDupEx.manifest.map Prod.fst).Nodup) ∧
    submitResult queueDupEx dupMsg = (queueDupEx, SubmitResp.duplicate) ∧
    ((submitResult queueDupEx dupMsg).fst.manifest.map Prod.fst).Nodup :=
  ⟨⟨by decide, by decide, by decide⟩,
   submitResult_duplicate_rejected queueDupEx dupMsg dupMsg
     (by decide) (by decide) (by decide)⟩

end InfinityCrawler
